import Mathlib

/-!
Verification of the FFX battle-transition core (src/main.py, src/mask_demo.py)
against its natural-language specification.

The Python source is shallowly embedded below.  Machine reals (Python floats)
are modelled with exact rationals, pixel colors with natural-number RGB
triples, and the shapely/pygame collaborators with the exact arithmetic the
source performs on their results.  The trigonometric effect of rotating a
polygon (shapely `rotate`) on its axis-aligned bounds is not expressible in
rational arithmetic; it is abstracted as an explicit per-frame parameter
`rotShiftX` of the update function, and every theorem below holds for all
values of that parameter.
-/

namespace FFXShatter

/-- An RGB color, as pygame stores channels (0..255). -/
structure Color where
  r : ℕ
  g : ℕ
  b : ℕ
deriving DecidableEq

/-- `pg.Color('#000000')`, the background marker used in `create_masked_poly`. -/
def blackColor : Color := ⟨0, 0, 0⟩

/-- `pg.Color('#ffffff')`, the foreground marker used in `create_masked_poly`. -/
def whiteColor : Color := ⟨255, 255, 255⟩

/-- `TRANSPARENT = pg.Color('#ff00ff')`, the colorkey (main.py line 20). -/
def transparentKey : Color := ⟨255, 0, 255⟩

/-- Per-channel minimum, the effect of `pg.BLEND_RGBA_MIN` on RGB channels. -/
def cmin (a b : Color) : Color := ⟨min a.r b.r, min a.g b.g, min a.b b.b⟩

/-- Embedding of `Shard.create_masked_poly` (main.py lines 55-69) at one local
pixel `(x, y)`.  `inside` is the rasterized shrunk polygon (`pg.draw.polygon`
filled with white on a black-filled copy), `src` is the cropped source
fragment.  The fragment is min-blended onto the marker surface, pixels still
exactly `#000000` are replaced by the `TRANSPARENT` key, and the colorkey
makes key-colored pixels fully transparent (`none`). -/
def maskedPixel (inside : ℕ → ℕ → Bool) (src : ℕ → ℕ → Color) (x y : ℕ) :
    Option Color :=
  let marker : Color := if inside x y then whiteColor else blackColor
  let blended : Color := cmin marker (src x y)
  let keyed : Color := if blended = blackColor then transparentKey else blended
  if keyed = transparentKey then none else some keyed

/-- The per-frame mutable scalar state of one `Shard` (main.py lines 24-110).
`masked` is the colorkeyed `masked_poly` image, computed once at construction;
`topleft_x` is the x component of `self.topleft` (the y component plays no
role in any claim and evolves independently). -/
structure ShardState where
  rotation_angle : ℚ
  rotation_delta : ℚ
  friction : ℚ
  in_motion : Bool
  motion_frame : ℕ
  tween_coords : List ℚ
  topleft_x : ℚ
  masked : ℕ → ℕ → Option Color

/-- `pytweening.easeInOutQuint`: `n = 2*n; if n < 1: 0.5*n**5 else:
n = n - 2; 0.5*(n**5 + 2)`. -/
def easeInOutQuint (n : ℚ) : ℚ :=
  let n2 := 2 * n
  if n2 < 1 then n2 ^ 5 / 2 else ((n2 - 2) ^ 5 + 2) / 2

/-- `pytweening.easeInOutQuad`: `if n < 0.5: 2*n**2 else:
n = n*2 - 1; -0.5*(n*(n-2) - 1)`. -/
def easeInOutQuad (n : ℚ) : ℚ :=
  let n2 := 2 * n
  if n2 < 1 then n2 ^ 2 / 2 else -((n2 - 1) * (n2 - 3) - 1) / 2

/-- The tween list built lazily by `Shard.translate` (main.py lines 91-94):
`start_x = self.topleft[0]; end_x = -start_x - 200;
tween_coords = [start_x + easeInOutQuint(f / 60) * end_x for f in range(60)]`. -/
def buildTween (start_x : ℚ) : List ℚ :=
  (List.range 60).map fun f : ℕ =>
    start_x + easeInOutQuint ((f : ℚ) / 60) * (-start_x - 200)

/-- The angular-velocity update of `Shard.update` (main.py line 101):
`rotation_delta * friction if abs(rotation_delta) > .05 else 0`. -/
def frictionStep (friction d : ℚ) : ℚ :=
  if 1/20 < |d| then d * friction else 0

/-- Embedding of `Shard.update` (main.py lines 99-110).  `rotShiftX` abstracts
the change rotating the polygon about its centroid makes to the polygon's
`x_min` bound (the trigonometric part of shapely `rotate`); `set_topleft`
then reads that bound.  While in motion, `translate` first builds the tween
lazily from the current `topleft`, then translates the polygon by
`tween_coords[motion_frame] - topleft[0]`, and `motion_frame` advances by
`min(motion_frame + 1, len(tween_coords) - 1)`. -/
def shardUpdate (rotShiftX : ℚ) (s : ShardState) : ShardState :=
  let angle := s.rotation_angle + s.rotation_delta
  let d := frictionStep s.friction s.rotation_delta
  if s.in_motion then
    let tw := if s.tween_coords.isEmpty then buildTween s.topleft_x else s.tween_coords
    let dx := tw.getD s.motion_frame 0 - s.topleft_x
    { s with
      rotation_angle := angle
      rotation_delta := d
      tween_coords := tw
      motion_frame := min (s.motion_frame + 1) (tw.length - 1)
      topleft_x := s.topleft_x + rotShiftX + dx }
  else
    { s with
      rotation_angle := angle
      rotation_delta := d
      topleft_x := s.topleft_x + rotShiftX }

/-- `Shard.begin_sweep` (main.py lines 47-50): enter the sweep state, disable
angular decay, and draw a new angular velocity (`random.choice` abstracted as
the parameter `newDelta`). -/
def beginSweep (newDelta : ℚ) (s : ShardState) : ShardState :=
  { s with in_motion := true, friction := 1, rotation_delta := newDelta }

/-- A freshly constructed idle shard with initial angular velocity `v` and
friction `f` (main.py lines 35-45: `friction = 0.92`, `in_motion = False`,
`motion_frame = 0`, `tween_coords = []`). -/
def idleShard (v f : ℚ) : ShardState :=
  { rotation_angle := 0
    rotation_delta := v
    friction := f
    in_motion := false
    motion_frame := 0
    tween_coords := []
    topleft_x := 0
    masked := fun _ _ => none }

/-- The angular velocity of an idle shard after `n` frames of `Shard.update`. -/
def deltaAt (v f : ℚ) (n : ℕ) : ℚ :=
  ((shardUpdate 0)^[n] (idleShard v f)).rotation_delta

/-- The pure scalar recurrence underlying the angular-velocity decay. -/
def frictionIter (f v : ℚ) : ℕ → ℚ
  | 0 => v
  | n + 1 => frictionStep f (frictionIter f v n)

/-- Iterated `Shard.update` over a list of per-frame bound shifts. -/
def shardUpdates (rs : List ℚ) (s : ShardState) : ShardState :=
  rs.foldl (fun t r => shardUpdate r t) s

/-- The reachable-state invariant for a shard: the tween list is either not
yet built or has its full 60 samples, and the cursor is within it. -/
def ShardInv (s : ShardState) : Prop :=
  s.motion_frame ≤ 59 ∧ (s.tween_coords = [] ∨ s.tween_coords.length = 60)

/-- The `Gone` observable of the orchestrator (main.py line 283): a shard
counts as finished when `motion_frame == len(tween_coords) - 1`; with an
empty tween the Python comparison is against `-1` and never holds. -/
def shardGone (s : ShardState) : Prop :=
  s.tween_coords ≠ [] ∧ s.motion_frame = s.tween_coords.length - 1

/-- One frame of the glare overlay (main.py lines 261-264).  State is
`(glare_alpha, glare_counter)`; while `glare_alpha` is truthy:
`glare_alpha = max(floor(easeInOutQuad(glare_counter) * 130), 0);
glare_counter -= 1/18`. -/
def glareStep (st : ℤ × ℚ) : ℤ × ℚ :=
  if st.1 ≠ 0 then (max ⌊easeInOutQuad st.2 * 130⌋ 0, st.2 - 1/18) else st

/-- The glare state at frame `n`; initially `(130, 1.0)` (main.py 210-212). -/
def glareState : ℕ → ℤ × ℚ
  | 0 => (130, 1)
  | n + 1 => glareStep (glareState n)

/-- The glare alpha rendered at frame `n`. -/
def glareAlpha (n : ℕ) : ℤ := (glareState n).1

/-- The sweep frontier (main.py lines 213, 266-267): `sweep_x` starts at the
bounding-box offset 128 and, while `sweep_x < 768`, advances by
`random.randint(8, 12)` each frame (the random draws are the parameter
`inc`). -/
def sweepFrontier (inc : ℕ → ℕ) : ℕ → ℚ
  | 0 => 128
  | n + 1 =>
    let x := sweepFrontier inc n
    if x < 768 then x + (inc n : ℚ) else x

/-- Whether an idle shard with centroid x-coordinate `x` has begun its sweep
by frame `n` (main.py lines 268-269: a shard not yet in motion begins its
sweep in any frame where `centroid_x < sweep_x`). -/
def shardFlagAt (inc : ℕ → ℕ) (x : ℚ) : ℕ → Bool
  | 0 => false
  | n + 1 => shardFlagAt inc x n || decide (x < sweepFrontier inc (n + 1))

/-- `increment_with_rollover` (mask_demo.py lines 18-24). -/
def increment_with_rollover (value delta rollover : ℤ) : ℤ :=
  let v := value + delta
  if v < rollover then v else v - rollover

/-- A 2-D point with exact rational coordinates. -/
abbrev Point : Type := ℚ × ℚ

/-- Numpy row indexing `vor.vertices[i]`: a negative index wraps around to
`len + i` (so the scipy marker `-1` for the Voronoi vertex at infinity picks
the *last* finite Voronoi vertex). -/
def npIndex (verts : List Point) (i : ℤ) : Point :=
  if 0 ≤ i then verts.getD i.toNat (0, 0)
  else verts.getD (verts.length - (-i).toNat) (0, 0)

/-- `Polygon(vor.vertices[region])` (main.py line 160): the ring of points a
region's index list selects from the Voronoi vertex array. -/
def regionPolygon (verts : List Point) (region : List ℤ) : List Point :=
  region.map (npIndex verts)

/-- `poly.exterior.coords`: shapely closes the ring by repeating the first
vertex at the end; an empty polygon has no coords. -/
def exteriorCoords (pts : List Point) : List Point :=
  match pts with
  | [] => []
  | p :: _ => (p :: pts.tail) ++ [p]

/-- The drop test of the filtering loop (main.py lines 164-176): `drop`
starts as `True` exactly when the exterior has no coords, and each coordinate
lying more than 1 unit outside the bounding box sets it. -/
def dropFlag (off size : Point) (poly : List Point) : Bool :=
  let coords := exteriorCoords poly
  coords.foldl
    (fun drop pt =>
      (drop || (decide (pt.1 < off.1 - 1) || decide (pt.1 > off.1 + size.1 + 1)))
        || (decide (pt.2 < off.2 - 1) || decide (pt.2 > off.2 + size.2 + 1)))
    coords.isEmpty

/-- Minimum of a rational list (0 for the empty list). -/
def listMinD (l : List ℚ) : ℚ := l.foldl min (l.headD 0)

/-- Maximum of a rational list (0 for the empty list). -/
def listMaxD (l : List ℚ) : ℚ := l.foldl max (l.headD 0)

/-- shapely `scale(poly, xfact, yfact)` with the default
`origin='center'`: scaling about the center of the polygon's own 2-D
*bounding box*, `((minx+maxx)/2, (miny+maxy)/2)`. -/
def scaleShapely (xfact yfact : ℚ) (poly : List Point) : List Point :=
  let xs := poly.map Prod.fst
  let ys := poly.map Prod.snd
  let cx := (listMinD xs + listMaxD xs) / 2
  let cy := (listMinD ys + listMaxD ys) / 2
  poly.map fun p => (cx + xfact * (p.1 - cx), cy + yfact * (p.2 - cy))

/-- Embedding of `create_voronoi_shards` (main.py lines 154-185) up to the
polygon each produced `Shard` holds: region rings are materialised, the
filtering loop drops flagged rings, and each survivor is passed through
`scale(poly, 0.9, 0.9)`. -/
def create_voronoi_polys (verts : List Point) (regions : List (List ℤ))
    (off size : Point) : List (List Point) :=
  let polygons := regions.foldl (fun acc region => acc ++ [regionPolygon verts region]) []
  let filtered := polygons.foldl
    (fun acc poly => if dropFlag off size poly then acc else acc ++ [poly]) []
  filtered.foldl (fun acc poly => acc ++ [scaleShapely (9/10) (9/10) poly]) []

/-- The signed doubled shoelace area of a closed ring. -/
def shoelace2 (ring : List Point) : ℚ :=
  (ring.zip ring.tail).foldl (fun acc pq => acc + (pq.1.1 * pq.2.2 - pq.2.1 * pq.1.2)) 0

/-- The area-weighted polygon centroid (shapely `poly.centroid`), via the
standard shoelace centroid formula over the closed exterior ring. -/
def polyCentroid (poly : List Point) : Point :=
  let ring := exteriorCoords poly
  let a2 := shoelace2 ring
  let cx := ((ring.zip ring.tail).foldl
    (fun acc pq => acc + (pq.1.1 + pq.2.1) * (pq.1.1 * pq.2.2 - pq.2.1 * pq.1.2)) 0) / (3 * a2)
  let cy := ((ring.zip ring.tail).foldl
    (fun acc pq => acc + (pq.1.2 + pq.2.2) * (pq.1.1 * pq.2.2 - pq.2.1 * pq.1.2)) 0) / (3 * a2)
  (cx, cy)

/-- Follows the spec's words (for comparison with `create_voronoi_polys`):
"Surviving polygons are each shrunk by a fixed scale factor (e.g. 0.9) about
their own centroid — not the box center". -/
def specShrinkAboutCentroid (poly : List Point) : List Point :=
  let c := polyCentroid poly
  poly.map fun p => (c.1 + (9/10) * (p.1 - c.1), c.2 + (9/10) * (p.2 - c.2))

/-- Follows the spec's words: the tessellation output with every surviving
polygon shrunk about its own centroid instead of its bounding-box center. -/
def spec_create_voronoi_polys (verts : List Point) (regions : List (List ℤ))
    (off size : Point) : List (List Point) :=
  let polygons := regions.foldl (fun acc region => acc ++ [regionPolygon verts region]) []
  let filtered := polygons.foldl
    (fun acc poly => if dropFlag off size poly then acc else acc ++ [poly]) []
  filtered.foldl (fun acc poly => acc ++ [specShrinkAboutCentroid poly]) []

/-- The reflection loop body of `create_vertices` (main.py lines 130-149):
for one sampled point, the reflections actually appended, in source order
(right, left, top, bottom), each guarded by the source's `delta < offset`
test. -/
def reflectionsOf (off size : Point) (pt : Point) : List Point :=
  let rightLine := off.1 + size.1
  let l1 := if rightLine - pt.1 < off.1 then [((rightLine + (rightLine - pt.1), pt.2) : Point)] else []
  let leftLine := off.1
  let l2 := if leftLine - pt.1 < off.1 then [((leftLine + (leftLine - pt.1), pt.2) : Point)] else []
  let topLine := off.2
  let l3 := if pt.2 - topLine < off.2 then [((pt.1, topLine - (pt.2 - topLine)) : Point)] else []
  let bottomLine := off.2 + size.2
  let l4 := if bottomLine - pt.2 < off.2 then [((pt.1, bottomLine + (bottomLine - pt.2)) : Point)] else []
  l1 ++ l2 ++ l3 ++ l4

/-- Embedding of `create_vertices` (main.py lines 118-151), parametrized by
the uniformly sampled points (the `np.random.uniform` draws): the sampled
points followed by all conditionally appended reflections. -/
def create_vertices (off size : Point) (samples : List Point) : List Point :=
  samples ++ samples.flatMap (reflectionsOf off size)

/-- Truncation toward zero, how pygame coerces a float `Rect` component to an
integer. -/
def ratTrunc (q : ℚ) : ℤ := if 0 ≤ q then ⌊q⌋ else -⌊-q⌋

/-- An integer pygame `Rect`. -/
structure CropRect where
  x : ℤ
  y : ℤ
  w : ℤ
  h : ℤ
deriving DecidableEq

/-- Least x-coordinate of a polygon's vertices (`poly.bounds[0]`). -/
def polyXMin (poly : List Point) : ℚ := listMinD (poly.map Prod.fst)

/-- Least y-coordinate of a polygon's vertices (`poly.bounds[1]`). -/
def polyYMin (poly : List Point) : ℚ := listMinD (poly.map Prod.snd)

/-- Greatest x-coordinate of a polygon's vertices (`poly.bounds[2]`). -/
def polyXMax (poly : List Point) : ℚ := listMaxD (poly.map Prod.fst)

/-- Greatest y-coordinate of a polygon's vertices (`poly.bounds[3]`). -/
def polyYMax (poly : List Point) : ℚ := listMaxD (poly.map Prod.snd)

/-- `self.cropped_rect` (main.py line 33): `pg.Rect(x_min - offset[0],
y_min - offset[1], poly_width, poly_height)`, with pygame's float-to-int
truncation of each component. -/
def shardCropRect (off : Point) (poly : List Point) : CropRect :=
  ⟨ratTrunc (polyXMin poly - off.1), ratTrunc (polyYMin poly - off.2),
   ratTrunc (polyXMax poly - polyXMin poly), ratTrunc (polyYMax poly - polyYMin poly)⟩

/-- `Surface.subsurface` accepts a rect exactly when it lies inside the
parent surface; otherwise pygame raises `ValueError`. -/
def subsurfaceOK (w h : ℤ) (r : CropRect) : Bool :=
  decide (0 ≤ r.x) && decide (0 ≤ r.y) && decide (r.x + r.w ≤ w) && decide (r.y + r.h ≤ h)

/-- Embedding of the fallible part of `Shard.__init__` (main.py lines 29-34):
the crop of the source image to the polygon's bounding rectangle.  `none`
models the `ValueError` pygame raises from `subsurface`; every later
construction step (mask creation, initial rotation draw) is non-fallible. -/
def shardInit (w h : ℤ) (off : Point) (poly : List Point) : Option CropRect :=
  let r := shardCropRect off poly
  if subsurfaceOK w h r then some r else none

/-- The polygon of the counterexample input for the tessellation claim. -/
def voronoiDemoVerts : List Point := [(200, 200), (400, 200), (200, 400)]

/-- Two Voronoi regions over `voronoiDemoVerts`: a bounded one and one scipy
marks unbounded with the index `-1`. -/
def voronoiDemoRegions : List (List ℤ) := [[0, 1, 2], [0, 1, -1]]

/-- A triangle whose real-valued bounds stick out 0.5 unit past a 100x100
image on the right, used against the mask-construction error claim. -/
def cropDemoPoly : List Point := [(9/10, 0), (201/2, 0), (9/10, 50)]

/- ------------------------------------------------------------------ -/
/- Theorems                                                           -/
/- ------------------------------------------------------------------ -/

theorem foldl_min_le (l : List ℚ) : ∀ init : ℚ, l.foldl min init ≤ init := by
  induction l with
  | nil => intro init; exact le_refl _
  | cons a t ih =>
    intro init
    calc (a :: t).foldl min init = t.foldl min (min init a) := by rw [List.foldl_cons]
    _ ≤ min init a := ih _
    _ ≤ init := min_le_left _ _

theorem le_foldl_max (l : List ℚ) : ∀ init : ℚ, init ≤ l.foldl max init := by
  induction l with
  | nil => intro init; exact le_refl _
  | cons a t ih =>
    intro init
    calc init ≤ max init a := le_max_left _ _
    _ ≤ t.foldl max (max init a) := ih _
    _ = (a :: t).foldl max init := by rw [List.foldl_cons]

theorem listMinD_le_listMaxD (l : List ℚ) : listMinD l ≤ listMaxD l :=
  le_trans (foldl_min_le l _) (le_foldl_max l _)

/-- Claim C10: for `0 ≤ value < rollover` and `0 ≤ delta ≤ rollover`,
`increment_with_rollover value delta rollover` equals
`(value + delta) % rollover` and always lies in `[0, rollover)`. -/
theorem C10_rollover (value delta rollover : ℤ) (h1 : 0 ≤ value)
    (h2 : value < rollover) (h3 : 0 ≤ delta) (h4 : delta ≤ rollover) :
    increment_with_rollover value delta rollover = (value + delta) % rollover
  ∧ 0 ≤ increment_with_rollover value delta rollover
  ∧ increment_with_rollover value delta rollover < rollover := by
  simp only [increment_with_rollover]
  split
  · next h => exact ⟨(Int.emod_eq_of_lt (by omega) h).symm, by omega, h⟩
  · next h =>
    have hge : 0 ≤ value + delta - rollover := by omega
    have hlt : value + delta - rollover < rollover := by omega
    refine ⟨?_, hge, hlt⟩
    rw [Int.emod_eq_sub_self_emod]
    exact (Int.emod_eq_of_lt hge hlt).symm

theorem C10_rollover_witness :
    ((0:ℤ) ≤ 350 ∧ (350:ℤ) < 360 ∧ (0:ℤ) ≤ 20 ∧ (20:ℤ) ≤ 360)
  ∧ (increment_with_rollover 350 20 360 = (350 + 20) % 360
      ∧ 0 ≤ increment_with_rollover 350 20 360
      ∧ increment_with_rollover 350 20 360 < 360) :=
  ⟨by norm_num,
   C10_rollover 350 20 360 (by norm_num) (by norm_num) (by norm_num) (by norm_num)⟩

theorem sweepFrontier_mono (inc : ℕ → ℕ) (n : ℕ) :
    sweepFrontier inc n ≤ sweepFrontier inc (n + 1) := by
  show sweepFrontier inc n ≤ (let x := sweepFrontier inc n; if x < 768 then x + (inc n : ℚ) else x)
  simp only []
  split
  · have : (0:ℚ) ≤ (inc n : ℚ) := by positivity
    linarith
  · exact le_refl _

theorem sweepFrontier_growth (inc : ℕ → ℕ) (hinc : ∀ n, 8 ≤ inc n) (n : ℕ) :
    768 ≤ sweepFrontier inc n ∨ 128 + 8 * (n : ℚ) ≤ sweepFrontier inc n := by
  induction n with
  | zero => right; simp [sweepFrontier]
  | succ n ih =>
    have step : sweepFrontier inc (n + 1)
        = (if sweepFrontier inc n < 768 then sweepFrontier inc n + (inc n : ℚ)
           else sweepFrontier inc n) := rfl
    by_cases hlt : sweepFrontier inc n < 768
    · rcases ih with h | h
      · exact absurd hlt (not_lt.mpr h)
      · right
        have h8 : (8 : ℚ) ≤ (inc n : ℚ) := by exact_mod_cast hinc n
        rw [step, if_pos hlt]
        push_cast
        linarith
    · left
      rw [step, if_neg hlt]
      exact not_lt.mp hlt

/-- Claim C6: the sweep frontier starts at the near edge and, each frame while
short of the far edge (768), advances by the random increment (8-12);
consequently it is monotone, the has-begun-sweep flag of any idle shard is
monotone in its centroid's x-coordinate (a nearer shard begins its sweep no
later than a farther one), and every shard with centroid left of the far edge
eventually begins its sweep. -/
theorem C6_sweepOrder (inc : ℕ → ℕ) (hinc : ∀ n, 8 ≤ inc n ∧ inc n ≤ 12)
    (xA xB : ℚ) (hAB : xA < xB) (hxB : xB < 768) :
    (∀ n, sweepFrontier inc n ≤ sweepFrontier inc (n + 1))
  ∧ (∀ n, sweepFrontier inc n < 768 →
      sweepFrontier inc (n + 1) = sweepFrontier inc n + (inc n : ℚ))
  ∧ (∀ n, 768 ≤ sweepFrontier inc n →
      sweepFrontier inc (n + 1) = sweepFrontier inc n)
  ∧ (∀ n, shardFlagAt inc xB n = true → shardFlagAt inc xA n = true)
  ∧ (∃ n, shardFlagAt inc xB n = true ∧ shardFlagAt inc xA n = true) := by
  refine ⟨sweepFrontier_mono inc, ?_, ?_, ?_, ?_⟩
  · intro n h
    show (if sweepFrontier inc n < 768 then sweepFrontier inc n + (inc n : ℚ)
          else sweepFrontier inc n) = _
    rw [if_pos h]
  · intro n h
    show (if sweepFrontier inc n < 768 then sweepFrontier inc n + (inc n : ℚ)
          else sweepFrontier inc n) = _
    rw [if_neg (not_lt.mpr h)]
  · intro n
    induction n with
    | zero => simp [shardFlagAt]
    | succ n ih =>
      intro h
      simp only [shardFlagAt, Bool.or_eq_true, decide_eq_true_eq] at h ⊢
      rcases h with h | h
      · exact Or.inl (ih h)
      · exact Or.inr (lt_trans hAB h)
  · refine ⟨81, ?_, ?_⟩ <;>
      · simp only [shardFlagAt, Bool.or_eq_true, decide_eq_true_eq]
        refine Or.inr ?_
        have h80 : (768 : ℚ) ≤ sweepFrontier inc 80 := by
          rcases sweepFrontier_growth inc (fun n => (hinc n).1) 80 with h | h
          · exact h
          · push_cast at h; linarith
        have h81 : sweepFrontier inc 80 ≤ sweepFrontier inc 81 := sweepFrontier_mono inc 80
        linarith

theorem C6_sweepOrder_witness :
    ((∀ n : ℕ, 8 ≤ (fun _ : ℕ => 10) n ∧ (fun _ : ℕ => 10) n ≤ 12)
      ∧ (200 : ℚ) < 300 ∧ (300 : ℚ) < 768)
  ∧ ((∀ n, sweepFrontier (fun _ => 10) n ≤ sweepFrontier (fun _ => 10) (n + 1))
  ∧ (∀ n, sweepFrontier (fun _ => 10) n < 768 →
      sweepFrontier (fun _ => 10) (n + 1) = sweepFrontier (fun _ => 10) n + ((10:ℕ) : ℚ))
  ∧ (∀ n, 768 ≤ sweepFrontier (fun _ => 10) n →
      sweepFrontier (fun _ => 10) (n + 1) = sweepFrontier (fun _ => 10) n)
  ∧ (∀ n, shardFlagAt (fun _ => 10) 300 n = true → shardFlagAt (fun _ => 10) 200 n = true)
  ∧ (∃ n, shardFlagAt (fun _ => 10) 300 n = true ∧ shardFlagAt (fun _ => 10) 200 n = true)) :=
  ⟨⟨fun _ => ⟨by norm_num, by norm_num⟩, by norm_num, by norm_num⟩,
   C6_sweepOrder (fun _ => 10) (fun _ => ⟨by norm_num, by norm_num⟩) 200 300
     (by norm_num) (by norm_num)⟩

theorem buildTween_length (sx : ℚ) : (buildTween sx).length = 60 := by
  rw [buildTween, List.length_map, List.length_range]

theorem shardInv_update (r : ℚ) (s : ShardState) (h : ShardInv s) :
    ShardInv (shardUpdate r s) := by
  obtain ⟨hmf, htw⟩ := h
  simp only [shardUpdate]
  split
  · rcases htw with htw | htw
    · constructor
      · simp [htw, List.isEmpty, buildTween_length]
      · right; simp [htw, List.isEmpty, buildTween_length]
    · have hne : s.tween_coords.isEmpty = false := by
        cases hc : s.tween_coords with
        | nil => rw [hc] at htw; simp at htw
        | cons a t => simp [List.isEmpty]
      constructor
      · simp [hne, htw]
      · right; simp [hne, htw]
  · exact ⟨hmf, htw⟩

theorem motionFrame_mono (r : ℚ) (s : ShardState) (h : ShardInv s) :
    s.motion_frame ≤ (shardUpdate r s).motion_frame := by
  obtain ⟨hmf, htw⟩ := h
  simp only [shardUpdate]
  split
  · rcases htw with htw | htw
    · simp [htw, List.isEmpty, buildTween_length]
      omega
    · have hne : s.tween_coords.isEmpty = false := by
        cases hc : s.tween_coords with
        | nil => rw [hc] at htw; simp at htw
        | cons a t => simp [List.isEmpty]
      simp [hne, htw] <;> omega
  · exact le_refl _

theorem motionFrame_bounded (r : ℚ) (s : ShardState) (h : ShardInv s) :
    (shardUpdate r s).motion_frame ≤ 59 := by
  obtain ⟨hmf, htw⟩ := h
  simp only [shardUpdate]
  split
  · rcases htw with htw | htw
    · simp [htw, List.isEmpty, buildTween_length] <;> omega
    · have hne : s.tween_coords.isEmpty = false := by
        cases hc : s.tween_coords with
        | nil => rw [hc] at htw; simp at htw
        | cons a t => simp [List.isEmpty]
      simp [hne, htw] <;> omega
  · exact hmf

theorem gone_step (r : ℚ) (s : ShardState) (hInv : ShardInv s) (hg : shardGone s) :
    ShardInv (shardUpdate r s) ∧ shardGone (shardUpdate r s) := by
  refine ⟨shardInv_update r s hInv, ?_⟩
  obtain ⟨hmf59, htw⟩ := hInv
  obtain ⟨hne, hmf⟩ := hg
  have hlen : s.tween_coords.length = 60 := by
    rcases htw with h | h
    · exact absurd h hne
    · exact h
  have hEmp : s.tween_coords.isEmpty = false := by
    cases hc : s.tween_coords with
    | nil => exact absurd hc hne
    | cons a t => simp [List.isEmpty]
  simp only [shardUpdate]
  split
  · constructor
    · simp [hEmp, hne]
    · simp [hEmp, hlen, hmf]
  · exact ⟨hne, hmf⟩

theorem gone_updates (rs : List ℚ) : ∀ s : ShardState, ShardInv s → shardGone s →
    shardGone (shardUpdates rs s) := by
  induction rs with
  | nil => intro s _ hg; exact hg
  | cons r rs ih =>
    intro s hInv hg
    have hstep := gone_step r s hInv hg
    show shardGone ((r :: rs).foldl (fun t r => shardUpdate r t) s)
    rw [List.foldl_cons]
    exact ih (shardUpdate r s) hstep.1 hstep.2

/-- Claim C4: under the reachable-state invariant, `motion_frame` never
decreases across updates, never exceeds `len(tween_coords) - 1 = 59`, and
once the shard counts as finished (`Gone`) it stays finished under every
further sequence of updates. -/
theorem C4_terminal (s : ShardState) (h : ShardInv s) :
    (∀ r, ShardInv (shardUpdate r s))
  ∧ (∀ r, s.motion_frame ≤ (shardUpdate r s).motion_frame)
  ∧ (∀ r, (shardUpdate r s).motion_frame ≤ 59)
  ∧ (shardGone s → ∀ rs : List ℚ, shardGone (shardUpdates rs s)) :=
  ⟨fun r => shardInv_update r s h,
   fun r => motionFrame_mono r s h,
   fun r => motionFrame_bounded r s h,
   fun hg rs => gone_updates rs s h hg⟩

/-- A concrete shard state that has finished its sweep. -/
def goneShard : ShardState :=
  { rotation_angle := 10
    rotation_delta := 3
    friction := 1
    in_motion := true
    motion_frame := 59
    tween_coords := buildTween 128
    topleft_x := -199
    masked := fun _ _ => none }

theorem C4_terminal_witness :
    ShardInv goneShard
  ∧ ((∀ r, ShardInv (shardUpdate r goneShard))
  ∧ (∀ r, goneShard.motion_frame ≤ (shardUpdate r goneShard).motion_frame)
  ∧ (∀ r, (shardUpdate r goneShard).motion_frame ≤ 59)
  ∧ (shardGone goneShard → ∀ rs : List ℚ, shardGone (shardUpdates rs goneShard))) :=
  ⟨⟨by simp [goneShard], Or.inr (by simp [goneShard, buildTween_length])⟩,
   C4_terminal goneShard
     ⟨by simp [goneShard], Or.inr (by simp [goneShard, buildTween_length])⟩⟩

theorem cmin_white (c : Color) (hr : c.r ≤ 255) (hg : c.g ≤ 255) (hb : c.b ≤ 255) :
    cmin whiteColor c = c := by
  cases c with
  | mk cr cg cb =>
    simp only [cmin, whiteColor, Color.mk.injEq] at *
    exact ⟨by omega, by omega, by omega⟩

theorem cmin_black (c : Color) : cmin blackColor c = blackColor := by
  cases c with
  | mk cr cg cb => simp [cmin, blackColor]

/-- Claim C1 (amended): a masked pixel equals the source-fragment pixel
inside the rasterized polygon unless the source pixel is exactly the black
fill sentinel `#000000` or the colorkey `#ff00ff`, in which case it is fully
transparent; outside the polygon it is always fully transparent; and the
mask is never touched by the per-frame update, so this holds permanently. -/
theorem C1_mask (inside : ℕ → ℕ → Bool) (src : ℕ → ℕ → Color) (x y : ℕ)
    (hr : (src x y).r ≤ 255) (hg : (src x y).g ≤ 255) (hb : (src x y).b ≤ 255) :
    (inside x y = true → src x y ≠ blackColor → src x y ≠ transparentKey →
      maskedPixel inside src x y = some (src x y))
  ∧ (inside x y = true → (src x y = blackColor ∨ src x y = transparentKey) →
      maskedPixel inside src x y = none)
  ∧ (inside x y = false → maskedPixel inside src x y = none)
  ∧ (∀ (r : ℚ) (s : ShardState), (shardUpdate r s).masked = s.masked) := by
  refine ⟨?_, ?_, ?_, ?_⟩
  · intro hin hnb hnt
    simp only [maskedPixel, hin, if_true, cmin_white (src x y) hr hg hb]
    rw [if_neg hnb, if_neg hnt]
  · intro hin hcase
    simp only [maskedPixel, hin, if_true, cmin_white (src x y) hr hg hb]
    rcases hcase with hcb | hct
    · rw [if_pos hcb, if_pos rfl]
    · have hnb : src x y ≠ blackColor := by
        rw [hct]; simp [transparentKey, blackColor]
      rw [if_neg hnb, if_pos hct]
  · intro hout
    simp [maskedPixel, hout, cmin_black]
  · intro r s
    simp only [shardUpdate]
    split <;> rfl

theorem C1_mask_witness :
    (((fun _ _ => (⟨100, 150, 200⟩ : Color)) (0:ℕ) (0:ℕ)).r ≤ 255
      ∧ ((fun _ _ => (⟨100, 150, 200⟩ : Color)) (0:ℕ) (0:ℕ)).g ≤ 255
      ∧ ((fun _ _ => (⟨100, 150, 200⟩ : Color)) (0:ℕ) (0:ℕ)).b ≤ 255)
  ∧ (((fun _ _ => true : ℕ → ℕ → Bool) 0 0 = true →
        (fun _ _ => (⟨100, 150, 200⟩ : Color)) 0 0 ≠ blackColor →
        (fun _ _ => (⟨100, 150, 200⟩ : Color)) 0 0 ≠ transparentKey →
        maskedPixel (fun _ _ => true) (fun _ _ => ⟨100, 150, 200⟩) 0 0
          = some ((fun _ _ => (⟨100, 150, 200⟩ : Color)) 0 0))
  ∧ ((fun _ _ => true : ℕ → ℕ → Bool) 0 0 = true →
        ((fun _ _ => (⟨100, 150, 200⟩ : Color)) 0 0 = blackColor
          ∨ (fun _ _ => (⟨100, 150, 200⟩ : Color)) 0 0 = transparentKey) →
        maskedPixel (fun _ _ => true) (fun _ _ => ⟨100, 150, 200⟩) 0 0 = none)
  ∧ ((fun _ _ => true : ℕ → ℕ → Bool) 0 0 = false →
        maskedPixel (fun _ _ => true) (fun _ _ => ⟨100, 150, 200⟩) 0 0 = none)
  ∧ (∀ (r : ℚ) (s : ShardState), (shardUpdate r s).masked = s.masked)) :=
  ⟨⟨by norm_num, by norm_num, by norm_num⟩,
   C1_mask (fun _ _ => true) (fun _ _ => ⟨100, 150, 200⟩) 0 0
     (by norm_num) (by norm_num) (by norm_num)⟩

/-- Counterexample to claim C1 as stated: at a pixel inside the polygon whose
source color is exactly `#000000`, the masked image is fully transparent
rather than equal to the source pixel. -/
theorem C1_blackPixel_cex :
    (fun _ _ => true : ℕ → ℕ → Bool) 0 0 = true
  ∧ maskedPixel (fun _ _ => true) (fun _ _ => blackColor) 0 0 ≠ some blackColor
  ∧ maskedPixel (fun _ _ => true) (fun _ _ => blackColor) 0 0 = none := by
  refine ⟨rfl, ?_, ?_⟩ <;> decide


theorem glareState_succ_eq (n : ℕ) (a z : ℤ) (c : ℚ) (hgs : glareState n = (a, c))
    (ha : a ≠ 0) (h1 : (z : ℚ) ≤ easeInOutQuad c * 130)
    (h2 : easeInOutQuad c * 130 < z + 1) (h3 : 0 ≤ z) :
    glareState (n + 1) = (z, c - 1/18) := by
  have hf : ⌊easeInOutQuad c * 130⌋ = z := Int.floor_eq_iff.mpr ⟨h1, h2⟩
  show glareStep (glareState n) = _
  rw [hgs]
  simp [glareStep, ha, hf, max_eq_left h3]

/-- Claim C5: the glare alpha starts at 130, while positive it is recomputed
each frame as `max(floor(easeInOutQuad(counter) * 130), 0)` with the counter
decremented by 1/18; the resulting per-frame alpha sequence is non-increasing,
equals 130 at frame 0, and is exactly 0 at frame 18 and at every later frame,
never becoming positive again. -/
theorem C5_glare :
    glareAlpha 0 = 130
  ∧ (∀ n, glareAlpha (n + 1) ≤ glareAlpha n)
  ∧ (∀ n, 18 ≤ n → glareAlpha n = 0) := by
  have g0 : glareState 0 = (130, 1) := rfl
  have g1 := glareState_succ_eq 0 130 130 _ g0 (by norm_num)
    (by norm_num [easeInOutQuad]) (by norm_num [easeInOutQuad]) (by norm_num)
  have g2 := glareState_succ_eq 1 130 129 _ g1 (by norm_num)
    (by norm_num [easeInOutQuad]) (by norm_num [easeInOutQuad]) (by norm_num)
  have g3 := glareState_succ_eq 2 129 126 _ g2 (by norm_num)
    (by norm_num [easeInOutQuad]) (by norm_num [easeInOutQuad]) (by norm_num)
  have g4 := glareState_succ_eq 3 126 122 _ g3 (by norm_num)
    (by norm_num [easeInOutQuad]) (by norm_num [easeInOutQuad]) (by norm_num)
  have g5 := glareState_succ_eq 4 122 117 _ g4 (by norm_num)
    (by norm_num [easeInOutQuad]) (by norm_num [easeInOutQuad]) (by norm_num)
  have g6 := glareState_succ_eq 5 117 109 _ g5 (by norm_num)
    (by norm_num [easeInOutQuad]) (by norm_num [easeInOutQuad]) (by norm_num)
  have g7 := glareState_succ_eq 6 109 101 _ g6 (by norm_num)
    (by norm_num [easeInOutQuad]) (by norm_num [easeInOutQuad]) (by norm_num)
  have g8 := glareState_succ_eq 7 101 90 _ g7 (by norm_num)
    (by norm_num [easeInOutQuad]) (by norm_num [easeInOutQuad]) (by norm_num)
  have g9 := glareState_succ_eq 8 90 78 _ g8 (by norm_num)
    (by norm_num [easeInOutQuad]) (by norm_num [easeInOutQuad]) (by norm_num)
  have g10 := glareState_succ_eq 9 78 65 _ g9 (by norm_num)
    (by norm_num [easeInOutQuad]) (by norm_num [easeInOutQuad]) (by norm_num)
  have g11 := glareState_succ_eq 10 65 51 _ g10 (by norm_num)
    (by norm_num [easeInOutQuad]) (by norm_num [easeInOutQuad]) (by norm_num)
  have g12 := glareState_succ_eq 11 51 39 _ g11 (by norm_num)
    (by norm_num [easeInOutQuad]) (by norm_num [easeInOutQuad]) (by norm_num)
  have g13 := glareState_succ_eq 12 39 28 _ g12 (by norm_num)
    (by norm_num [easeInOutQuad]) (by norm_num [easeInOutQuad]) (by norm_num)
  have g14 := glareState_succ_eq 13 28 20 _ g13 (by norm_num)
    (by norm_num [easeInOutQuad]) (by norm_num [easeInOutQuad]) (by norm_num)
  have g15 := glareState_succ_eq 14 20 12 _ g14 (by norm_num)
    (by norm_num [easeInOutQuad]) (by norm_num [easeInOutQuad]) (by norm_num)
  have g16 := glareState_succ_eq 15 12 7 _ g15 (by norm_num)
    (by norm_num [easeInOutQuad]) (by norm_num [easeInOutQuad]) (by norm_num)
  have g17 := glareState_succ_eq 16 7 3 _ g16 (by norm_num)
    (by norm_num [easeInOutQuad]) (by norm_num [easeInOutQuad]) (by norm_num)
  have g18 := glareState_succ_eq 17 3 0 _ g17 (by norm_num)
    (by norm_num [easeInOutQuad]) (by norm_num [easeInOutQuad]) (by norm_num)
  have hfix : ∀ m, glareState (18 + m) = glareState 18 := by
    intro m
    induction m with
    | zero => rfl
    | succ m ih =>
      show glareStep (glareState (18 + m)) = _
      rw [ih, g18]
      simp [glareStep]
  have hzero : ∀ n, 18 ≤ n → glareAlpha n = 0 := by
    intro n hn
    obtain ⟨m, rfl⟩ : ∃ m, n = 18 + m := ⟨n - 18, by omega⟩
    rw [glareAlpha, hfix m, g18]
  refine ⟨rfl, ?_, hzero⟩
  intro n
  by_cases hn : n < 18
  · interval_cases n <;>
      simp_all only [glareAlpha] <;> norm_num
  · have h1 := hzero (n + 1) (by omega)
    have h2 := hzero n (by omega)
    rw [h1, h2]

theorem easeQuint_lt (a b : ℚ) (ha : 0 ≤ a) (hab : a < b) (hb : b ≤ 1) :
    easeInOutQuint a < easeInOutQuint b := by
  have hodd : Odd 5 := Nat.odd_iff.mpr rfl
  simp only [easeInOutQuint]
  by_cases h2a : 2 * a < 1
  · by_cases h2b : 2 * b < 1
    · rw [if_pos h2a, if_pos h2b]
      have := pow_lt_pow_left₀ (show 2*a < 2*b by linarith) (by linarith : (0:ℚ) ≤ 2*a)
        (show 5 ≠ 0 by norm_num)
      linarith
    · rw [if_pos h2a, if_neg h2b]
      have hlt1 : (2*a)^5 < 1 := pow_lt_one₀ (by linarith) h2a (by norm_num)
      have hm1 : (-1 : ℚ) ≤ 2*b - 2 := by linarith
      have hmono : ((-1:ℚ))^5 ≤ (2*b - 2)^5 := by
        simpa using ((Odd.strictMono_pow (R := ℚ) hodd).monotone) hm1
      have hneg1 : ((-1:ℚ))^5 = -1 := by norm_num
      rw [hneg1] at hmono
      linarith
  · by_cases h2b : 2 * b < 1
    · linarith
    · rw [if_neg h2a, if_neg h2b]
      have hlt : (2*a - 2)^5 < (2*b - 2)^5 := by
        simpa using (Odd.strictMono_pow (R := ℚ) hodd) (show 2*a - 2 < 2*b - 2 by linarith)
      linarith

theorem buildTween_getD (sx : ℚ) (k : ℕ) (h : k < 60) :
    (buildTween sx).getD k 0 = sx + easeInOutQuint ((k : ℚ) / 60) * (-sx - 200) := by
  simp [buildTween, List.getD, List.getElem?_map, List.getElem?_range h]

theorem buildTween_chain (sx : ℚ) (hx : -200 < sx) :
    List.Chain' (fun a b => b < a) (buildTween sx) := by
  rw [buildTween, List.chain'_map, show (60:ℕ) = 59 + 1 from rfl, List.chain'_range_succ]
  intro m hm
  have hcast : ((m:ℚ)) ≤ 58 := by exact_mod_cast Nat.lt_succ_iff.mp hm
  have he : easeInOutQuint ((m:ℚ)/60) < easeInOutQuint (((m+1:ℕ):ℚ)/60) := by
    apply easeQuint_lt
    · positivity
    · push_cast; linarith
    · push_cast; linarith
  have hneg : -sx - 200 < 0 := by linarith
  have := mul_lt_mul_of_neg_right he hneg
  push_cast
  push_cast at this
  linarith

theorem ease59_val : easeInOutQuint (59/60) = 48599999/48600000 := by
  norm_num [easeInOutQuint]

theorem buildTween_last (sx : ℚ) :
    (buildTween sx).getD 59 0 = -200 + (sx + 200) / 48600000 := by
  rw [buildTween_getD sx 59 (by norm_num)]
  push_cast
  rw [ease59_val]
  ring

/-- Claim C3 (amended): the lazily built sweep tween has exactly 60 samples,
sample `f` is `start_x + easeInOutQuint(f/60) * (-start_x - 200)`, the samples
strictly decrease (the sweep direction is leftward), the first equals the
shard's x-position at sweep start, and the last equals
`-200 + (start_x + 200)/48600000` — just short of the fixed target `x = -200`,
i.e. 200 units past the canvas's left edge and independent of the image
width; the tween is built on the first in-motion update from the current
`topleft` and left untouched afterwards. -/
theorem C3_tween (sx : ℚ) (hx : -200 < sx) :
    (buildTween sx).length = 60
  ∧ (∀ k : ℕ, k < 60 →
      (buildTween sx).getD k 0 = sx + easeInOutQuint ((k : ℚ) / 60) * (-sx - 200))
  ∧ (buildTween sx).getD 0 0 = sx
  ∧ List.Chain' (fun a b => b < a) (buildTween sx)
  ∧ (buildTween sx).getD 59 0 = -200 + (sx + 200) / 48600000
  ∧ (-200 : ℚ) < (buildTween sx).getD 59 0
  ∧ (∀ (r : ℚ) (s : ShardState), s.in_motion = true → s.tween_coords = [] →
      (shardUpdate r s).tween_coords = buildTween s.topleft_x)
  ∧ (∀ (r : ℚ) (s : ShardState), s.in_motion = true → s.tween_coords ≠ [] →
      (shardUpdate r s).tween_coords = s.tween_coords) := by
  refine ⟨buildTween_length sx, fun k hk => buildTween_getD sx k hk, ?_, ?_, ?_, ?_, ?_, ?_⟩
  · rw [buildTween_getD sx 0 (by norm_num)]
    norm_num [easeInOutQuint]
  · exact buildTween_chain sx hx
  · exact buildTween_last sx
  · rw [buildTween_last sx]
    have : 0 < (sx + 200) / 48600000 := div_pos (by linarith) (by norm_num)
    linarith
  · intro r s hm htw
    simp [shardUpdate, hm, htw]
  · intro r s hm htw
    have hne : s.tween_coords.isEmpty = false := by
      cases hc : s.tween_coords with
      | nil => exact absurd hc htw
      | cons a t => simp [List.isEmpty]
    simp [shardUpdate, hm, hne]

theorem C3_tween_witness :
    ((-200 : ℚ) < 128)
  ∧ ((buildTween 128).length = 60
  ∧ (∀ k : ℕ, k < 60 →
      (buildTween 128).getD k 0 = 128 + easeInOutQuint ((k : ℚ) / 60) * (-128 - 200))
  ∧ (buildTween 128).getD 0 0 = 128
  ∧ List.Chain' (fun a b => b < a) (buildTween 128)
  ∧ (buildTween 128).getD 59 0 = -200 + ((128:ℚ) + 200) / 48600000
  ∧ (-200 : ℚ) < (buildTween 128).getD 59 0
  ∧ (∀ (r : ℚ) (s : ShardState), s.in_motion = true → s.tween_coords = [] →
      (shardUpdate r s).tween_coords = buildTween s.topleft_x)
  ∧ (∀ (r : ℚ) (s : ShardState), s.in_motion = true → s.tween_coords ≠ [] →
      (shardUpdate r s).tween_coords = s.tween_coords)) :=
  ⟨by norm_num, C3_tween 128 (by norm_num)⟩

/-- Counterexample to claim C3 as stated: for a shard starting at `x = 128`
inside a 512-wide image, the last tween sample is strictly greater than
`-200`, so it is not "at least the image width plus a 200-unit margin beyond
the starting edge" (which would require it to be at most `128 - 712 = -584`,
or `-712` measured from the screen edge); the sweep target is the fixed point
`-200`, independent of the image width. -/
theorem C3_lastSample_cex :
    (-200 : ℚ) < (buildTween 128).getD 59 0
  ∧ ¬((buildTween 128).getD 59 0 ≤ 128 - (512 + 200)) := by
  have h : (buildTween 128).getD 59 0 = -200 + ((128:ℚ) + 200) / 48600000 :=
    buildTween_last 128
  constructor
  · rw [h]; norm_num
  · rw [h]; norm_num

theorem shardUpdate_rotation (r : ℚ) (s : ShardState) :
    (shardUpdate r s).rotation_angle = s.rotation_angle + s.rotation_delta
  ∧ (shardUpdate r s).rotation_delta = frictionStep s.friction s.rotation_delta
  ∧ (shardUpdate r s).friction = s.friction
  ∧ (shardUpdate r s).in_motion = s.in_motion := by
  simp only [shardUpdate]
  split <;> exact ⟨rfl, rfl, rfl, rfl⟩

theorem deltaAt_eq (v f : ℚ) (n : ℕ) : deltaAt v f n = frictionIter f v n := by
  have key : ∀ m, ((shardUpdate 0)^[m] (idleShard v f)).friction = f
      ∧ ((shardUpdate 0)^[m] (idleShard v f)).rotation_delta = frictionIter f v m := by
    intro m
    induction m with
    | zero => exact ⟨rfl, rfl⟩
    | succ m ih =>
      rw [Function.iterate_succ_apply']
      obtain ⟨hf, hd⟩ := ih
      obtain ⟨-, h2, h3, -⟩ := shardUpdate_rotation 0 ((shardUpdate 0)^[m] (idleShard v f))
      refine ⟨by rw [h3, hf], ?_⟩
      rw [h2, hf, hd]
      rfl
  exact (key n).2

theorem frictionStep_of_big {f d : ℚ} (h : 1/20 < |d|) : frictionStep f d = d * f := by
  simp only [frictionStep]
  rw [if_pos h]

theorem frictionStep_of_small {f d : ℚ} (h : ¬ (1/20 < |d|)) : frictionStep f d = 0 := by
  simp only [frictionStep]
  rw [if_neg h]

theorem abs_frictionStep_le (f d : ℚ) (hf0 : 0 ≤ f) (hf1 : f ≤ 1) :
    |frictionStep f d| ≤ |d| := by
  simp only [frictionStep]
  split
  · rw [abs_mul, abs_of_nonneg hf0]
    calc |d| * f ≤ |d| * 1 := mul_le_mul_of_nonneg_left hf1 (abs_nonneg d)
    _ = |d| := mul_one _
  · simpa using abs_nonneg d

theorem frictionIter_pow (v f : ℚ) (m : ℕ)
    (hm : ∀ k, k < m → 1/20 < |v * f ^ k|) :
    ∀ n, n ≤ m → frictionIter f v n = v * f ^ n := by
  intro n
  induction n with
  | zero => intro _; simp [frictionIter]
  | succ n ih =>
    intro hn
    show frictionStep f (frictionIter f v n) = v * f ^ (n + 1)
    rw [ih (by omega), frictionStep_of_big (hm n (by omega))]
    ring

theorem frictionIter_zero_iff (v f : ℚ) (hv : 1/20 < |v|) (hf0 : 0 < f) (hf1 : f < 1) :
    ∀ n : ℕ, frictionIter f v n = 0 ↔
      ((⌈Real.log (1/20 / |(v:ℝ)|) / Real.log (f:ℝ)⌉).toNat + 1) ≤ n := by
  have hvR : (1/20 : ℝ) < |(v:ℝ)| := by
    rw [← Rat.cast_abs, show (1/20 : ℝ) = ((1/20 : ℚ) : ℝ) by norm_num]
    exact Rat.cast_lt.mpr hv
  have hvpos : (0:ℝ) < |(v:ℝ)| := lt_trans (by norm_num) hvR
  have hfR0 : (0:ℝ) < (f:ℝ) := by exact_mod_cast hf0
  have hfR1 : (f:ℝ) < 1 := by exact_mod_cast hf1
  have hlogf : Real.log (f:ℝ) < 0 := Real.log_neg hfR0 hfR1
  have hR0 : (0:ℝ) < 1/20 / |(v:ℝ)| := by positivity
  have hR1 : 1/20 / |(v:ℝ)| < 1 := by rw [div_lt_one hvpos]; exact hvR
  have hlogR : Real.log (1/20 / |(v:ℝ)|) < 0 := Real.log_neg hR0 hR1
  set L : ℝ := Real.log (1/20 / |(v:ℝ)|) / Real.log (f:ℝ) with hLdef
  have hLpos : 0 < L := div_pos_of_neg_of_neg hlogR hlogf
  have crossR : ∀ n : ℕ, (|(v:ℝ)| * (f:ℝ) ^ n ≤ 1/20) ↔ L ≤ (n:ℝ) := by
    intro n
    rw [hLdef, div_le_iff_of_neg hlogf, ← Real.log_pow,
      Real.log_le_log_iff (pow_pos hfR0 n) hR0, le_div_iff hvpos, mul_comm]
  have hc1 : ∀ n : ℕ, ((|v| * f ^ n : ℚ) : ℝ) = |(v:ℝ)| * (f:ℝ) ^ n := by
    intro n
    push_cast
    ring
  have crossQ : ∀ n : ℕ, (|v| * f ^ n ≤ 1/20) ↔ L ≤ (n:ℝ) := by
    intro n
    rw [← crossR n, ← hc1 n, show (1/20 : ℝ) = ((1/20 : ℚ) : ℝ) by norm_num, Rat.cast_le]
  have hceil : (0:ℤ) < ⌈L⌉ := Int.ceil_pos.mpr hLpos
  set N : ℕ := (⌈L⌉).toNat with hNdef
  have hNcast : ((N:ℕ) : ℝ) = ((⌈L⌉ : ℤ) : ℝ) := by
    rw [hNdef]
    exact_mod_cast congrArg (fun z : ℤ => (z : ℝ)) (Int.toNat_of_nonneg hceil.le)
  have habs : ∀ k : ℕ, |v * f ^ k| = |v| * f ^ k := by
    intro k
    rw [abs_mul, abs_of_nonneg (pow_nonneg hf0.le k)]
  have hbig : ∀ k, k < N → 1/20 < |v * f ^ k| := by
    intro k hk
    rw [habs k]
    by_contra hle
    have hLk : L ≤ (k:ℝ) := (crossQ k).mp (not_lt.mp hle)
    have hk1 : (k:ℝ) + 1 ≤ (N:ℝ) := by exact_mod_cast Nat.succ_le_of_lt hk
    have hlt1 : ((⌈L⌉:ℤ):ℝ) < L + 1 := Int.ceil_lt_add_one L
    rw [← hNcast] at hlt1
    linarith
  have hvne : v ≠ 0 := by
    intro h0
    rw [h0] at hv
    norm_num at hv
  have hfne : (f:ℚ) ≠ 0 := ne_of_gt hf0
  have hzeroN1 : frictionIter f v (N + 1) = 0 := by
    show frictionStep f (frictionIter f v N) = 0
    rw [frictionIter_pow v f N hbig N (le_refl N)]
    apply frictionStep_of_small
    rw [habs N]
    exact not_lt.mpr ((crossQ N).mpr (by rw [hNcast]; exact Int.le_ceil L))
  have hzero_after : ∀ j, frictionIter f v (N + 1 + j) = 0 := by
    intro j
    induction j with
    | zero => exact hzeroN1
    | succ j ih =>
      show frictionStep f (frictionIter f v (N + 1 + j)) = 0
      rw [ih]
      apply frictionStep_of_small
      norm_num
  intro n
  constructor
  · intro hz
    by_contra hlt
    have hn : n ≤ N := by omega
    rw [frictionIter_pow v f N hbig n hn] at hz
    exact (mul_ne_zero hvne (pow_ne_zero n hfne)) hz
  · intro hge
    obtain ⟨j, rfl⟩ : ∃ j, n = N + 1 + j := ⟨n - (N + 1), by omega⟩
    exact hzero_after j

/-- Claim C2 (amended): each update adds the old angular velocity to the
angle and then multiplies the velocity by the friction coefficient, snapping
it to exactly 0 once `|velocity| ≤ 0.05`; for `|v0| > 0.05` and `0 < f < 1`
the velocity magnitude is monotonically non-increasing, and the velocity is
exactly 0 precisely from idle frame
`ceil(log(0.05/|v0|) / log(f)) + 1` on — one frame later than the
spec's `ceil(log(0.05/|v0|) / log(f))`. -/
theorem C2_rotationDecay (v f : ℚ) (hv : 1/20 < |v|) (hf0 : 0 < f) (hf1 : f < 1) :
    (∀ (r : ℚ) (s : ShardState),
        (shardUpdate r s).rotation_angle = s.rotation_angle + s.rotation_delta
      ∧ (shardUpdate r s).rotation_delta
          = if 1/20 < |s.rotation_delta| then s.rotation_delta * s.friction else 0)
  ∧ (∀ n : ℕ, |deltaAt v f (n + 1)| ≤ |deltaAt v f n|)
  ∧ (∀ n : ℕ, deltaAt v f n = 0 ↔
      ((⌈Real.log (1/20 / |(v:ℝ)|) / Real.log (f:ℝ)⌉).toNat + 1) ≤ n) := by
  refine ⟨?_, ?_, ?_⟩
  · intro r s
    obtain ⟨h1, h2, -, -⟩ := shardUpdate_rotation r s
    exact ⟨h1, by rw [h2]; rfl⟩
  · intro n
    rw [deltaAt_eq, deltaAt_eq]
    show |frictionStep f (frictionIter f v n)| ≤ _
    exact abs_frictionStep_le f _ hf0.le hf1.le
  · intro n
    rw [deltaAt_eq]
    exact frictionIter_zero_iff v f hv hf0 hf1 n

theorem C2_rotationDecay_witness :
    ((1:ℚ)/20 < |(1:ℚ)| ∧ (0:ℚ) < 1/2 ∧ (1:ℚ)/2 < 1)
  ∧ ((∀ (r : ℚ) (s : ShardState),
        (shardUpdate r s).rotation_angle = s.rotation_angle + s.rotation_delta
      ∧ (shardUpdate r s).rotation_delta
          = if 1/20 < |s.rotation_delta| then s.rotation_delta * s.friction else 0)
  ∧ (∀ n : ℕ, |deltaAt 1 (1/2) (n + 1)| ≤ |deltaAt 1 (1/2) n|)
  ∧ (∀ n : ℕ, deltaAt 1 (1/2) n = 0 ↔
      ((⌈Real.log (1/20 / |((1:ℚ):ℝ)|) / Real.log (((1/2:ℚ)):ℝ)⌉).toNat + 1) ≤ n)) :=
  ⟨⟨by rw [abs_one]; norm_num, by norm_num, by norm_num⟩,
   C2_rotationDecay 1 (1/2) (by rw [abs_one]; norm_num) (by norm_num) (by norm_num)⟩

/-- Counterexample to claim C2 as stated: for `v0 = 1`, `f = 1/2`, the spec's
frame count `ceil(log(0.05/1)/log(1/2))` equals 5, but after 5 idle frames
the velocity is `1/32`, not 0; it first reaches exactly 0 one frame later, at
frame 6. -/
theorem C2_offByOne_cex :
    ((⌈Real.log (1/20 / |((1:ℚ):ℝ)|) / Real.log (((1/2 : ℚ)):ℝ)⌉).toNat = 5)
  ∧ deltaAt 1 (1/2) 5 = 1/32
  ∧ deltaAt 1 (1/2) 5 ≠ 0
  ∧ deltaAt 1 (1/2) 6 = 0 := by
  have hlog2 : (0:ℝ) < Real.log 2 := Real.log_pos (by norm_num)
  have hLeq : Real.log (1/20 / |((1:ℚ):ℝ)|) / Real.log (((1/2 : ℚ)):ℝ)
      = Real.log 20 / Real.log 2 := by
    have e1 : |((1:ℚ):ℝ)| = 1 := by norm_num
    have e2 : (((1/2 : ℚ)):ℝ) = 1/2 := by norm_num
    rw [e1, e2, div_one, show (1/20 : ℝ) = 20⁻¹ by norm_num,
      show (1/2 : ℝ) = 2⁻¹ by norm_num, Real.log_inv, Real.log_inv, neg_div_neg_eq]
  have h4 : (4:ℝ) < Real.log 20 / Real.log 2 := by
    rw [lt_div_iff hlog2, show (4:ℝ) * Real.log 2 = Real.log (2 ^ (4:ℕ)) by
      rw [Real.log_pow]; push_cast; ring]
    exact Real.log_lt_log (by norm_num) (by norm_num)
  have h5 : Real.log 20 / Real.log 2 ≤ 5 := by
    rw [div_le_iff hlog2, show (5:ℝ) * Real.log 2 = Real.log (2 ^ (5:ℕ)) by
      rw [Real.log_pow]; push_cast; ring]
    exact (Real.log_le_log_iff (by norm_num) (by norm_num)).mpr (by norm_num)
  have hceil : (⌈Real.log 20 / Real.log 2⌉ : ℤ) = 5 := by
    rw [Int.ceil_eq_iff]
    constructor
    · push_cast; linarith
    · push_cast; linarith
  have e0 : frictionIter (1/2) 1 0 = 1 := rfl
  have e1 : frictionIter (1/2) 1 1 = 1/2 := by
    show frictionStep (1/2) (frictionIter (1/2) 1 0) = 1/2
    rw [e0, frictionStep_of_big (by rw [abs_one]; norm_num)]
    norm_num
  have e2 : frictionIter (1/2) 1 2 = 1/4 := by
    show frictionStep (1/2) (frictionIter (1/2) 1 1) = 1/4
    rw [e1, frictionStep_of_big (by rw [abs_of_pos (by norm_num : (0:ℚ) < 1/2)]; norm_num)]
    norm_num
  have e3 : frictionIter (1/2) 1 3 = 1/8 := by
    show frictionStep (1/2) (frictionIter (1/2) 1 2) = 1/8
    rw [e2, frictionStep_of_big (by rw [abs_of_pos (by norm_num : (0:ℚ) < 1/4)]; norm_num)]
    norm_num
  have e4 : frictionIter (1/2) 1 4 = 1/16 := by
    show frictionStep (1/2) (frictionIter (1/2) 1 3) = 1/16
    rw [e3, frictionStep_of_big (by rw [abs_of_pos (by norm_num : (0:ℚ) < 1/8)]; norm_num)]
    norm_num
  have e5 : frictionIter (1/2) 1 5 = 1/32 := by
    show frictionStep (1/2) (frictionIter (1/2) 1 4) = 1/32
    rw [e4, frictionStep_of_big (by rw [abs_of_pos (by norm_num : (0:ℚ) < 1/16)]; norm_num)]
    norm_num
  have e6 : frictionIter (1/2) 1 6 = 0 := by
    show frictionStep (1/2) (frictionIter (1/2) 1 5) = 0
    rw [e5, frictionStep_of_small (by rw [abs_of_pos (by norm_num : (0:ℚ) < 1/32)]; norm_num)]
  refine ⟨by rw [hLeq, hceil]; rfl, ?_, ?_, ?_⟩
  · rw [deltaAt_eq]
    exact e5
  · rw [deltaAt_eq, e5]
    norm_num
  · rw [deltaAt_eq]
    exact e6

theorem foldl_append_map {α β : Type} (g : α → β) (l : List α) : ∀ init : List β,
    l.foldl (fun acc x => acc ++ [g x]) init = init ++ l.map g := by
  induction l with
  | nil => intro init; simp
  | cons a t ih =>
    intro init
    rw [List.foldl_cons, ih (init ++ [g a])]
    simp

theorem foldl_filter_append {α : Type} (p : α → Bool) (l : List α) : ∀ init : List α,
    l.foldl (fun acc x => if p x then acc else acc ++ [x]) init
      = init ++ l.filter (fun x => !p x) := by
  induction l with
  | nil => intro init; simp
  | cons a t ih =>
    intro init
    rw [List.foldl_cons]
    by_cases h : p a
    · rw [if_pos h, ih init, List.filter_cons]
      simp [h]
    · rw [if_neg h, ih (init ++ [a]), List.filter_cons]
      simp [h]

theorem foldl_or_any {α : Type} (g : α → Bool) (l : List α) : ∀ b0 : Bool,
    l.foldl (fun b x => b || g x) b0 = (b0 || l.any g) := by
  induction l with
  | nil => intro b0; simp
  | cons a t ih =>
    intro b0
    rw [List.foldl_cons, ih (b0 || g a)]
    simp [Bool.or_assoc]

theorem dropFlag_iff (off size : Point) (poly : List Point) :
    dropFlag off size poly = true ↔
      (exteriorCoords poly = []
        ∨ ∃ pt ∈ exteriorCoords poly,
            pt.1 < off.1 - 1 ∨ pt.1 > off.1 + size.1 + 1
              ∨ pt.2 < off.2 - 1 ∨ pt.2 > off.2 + size.2 + 1) := by
  have hfun : (fun (drop : Bool) (pt : Point) =>
      (drop || (decide (pt.1 < off.1 - 1) || decide (pt.1 > off.1 + size.1 + 1)))
        || (decide (pt.2 < off.2 - 1) || decide (pt.2 > off.2 + size.2 + 1)))
      = fun (drop : Bool) (pt : Point) => drop ||
          ((decide (pt.1 < off.1 - 1) || decide (pt.1 > off.1 + size.1 + 1))
            || (decide (pt.2 < off.2 - 1) || decide (pt.2 > off.2 + size.2 + 1))) := by
    funext drop pt
    rw [Bool.or_assoc]
  rw [dropFlag, hfun, foldl_or_any]
  simp [List.any_eq_true, List.isEmpty_iff, or_assoc]

/-- Claim C7 (amended): the tessellation keeps exactly the region rings that
are nonempty and whose closed exterior ring stays within 1 unit of the
bounding box, and maps each survivor through `scale(poly, 0.9, 0.9)`, which
shrinks about the polygon's own bounding-box center; a cell scipy marks
unbounded (index `-1`) is not discarded as such — the `-1` resolves, by
Python negative indexing, to the last Voronoi vertex, and the cell survives
whenever the resulting ring passes the bounds check. -/
theorem C7_tessellation (verts : List Point) (regions : List (List ℤ)) (off size : Point) :
    create_voronoi_polys verts regions off size
      = ((regions.map (regionPolygon verts)).filter
          (fun poly => !dropFlag off size poly)).map (scaleShapely (9/10) (9/10))
  ∧ (∀ poly : List Point,
      dropFlag off size poly = true ↔
        (exteriorCoords poly = []
          ∨ ∃ pt ∈ exteriorCoords poly,
              pt.1 < off.1 - 1 ∨ pt.1 > off.1 + size.1 + 1
                ∨ pt.2 < off.2 - 1 ∨ pt.2 > off.2 + size.2 + 1)) := by
  constructor
  · rw [create_voronoi_polys,
      foldl_append_map (regionPolygon verts) regions [], List.nil_append,
      foldl_filter_append (dropFlag off size) (regions.map (regionPolygon verts)) [],
      List.nil_append,
      foldl_append_map (scaleShapely (9/10) (9/10))
        ((regions.map (regionPolygon verts)).filter (fun x => !dropFlag off size x)) [],
      List.nil_append]
  · exact dropFlag_iff off size

/-- Counterexample to claim C7 as stated: a region containing the unbounded
marker `-1` survives the filter (the output has both cells, identical rings),
and the output differs from the spec's centroid-based shrink — the code
shrinks about the bounding-box center (210 vs 620/3 on the first vertex). -/
theorem C7_cex :
    (create_voronoi_polys voronoiDemoVerts voronoiDemoRegions (128,128) (512,512)).length = 2
  ∧ create_voronoi_polys voronoiDemoVerts voronoiDemoRegions (128,128) (512,512)
      ≠ spec_create_voronoi_polys voronoiDemoVerts voronoiDemoRegions (128,128) (512,512) := by
  have hpolys : voronoiDemoRegions.map (regionPolygon voronoiDemoVerts)
      = [[(200,200),(400,200),(200,400)], [(200,200),(400,200),(200,400)]] := rfl
  have hdrop : dropFlag (128,128) (512,512) [(200,200),(400,200),(200,400)] = false := by
    norm_num [dropFlag, exteriorCoords]
  have hscale : scaleShapely (9/10) (9/10) [(200,200),(400,200),(200,400)]
      = [(210,210),(390,210),(210,390)] := by
    norm_num [scaleShapely, listMinD, listMaxD, min_def, max_def]
  have hcentroid : specShrinkAboutCentroid [(200,200),(400,200),(200,400)]
      = [(620/3, 620/3), (1160/3, 620/3), (620/3, 1160/3)] := by
    norm_num [specShrinkAboutCentroid, polyCentroid, shoelace2, exteriorCoords]
  have heval : create_voronoi_polys voronoiDemoVerts voronoiDemoRegions (128,128) (512,512)
      = [[(210, 210), (390, 210), (210, 390)], [(210, 210), (390, 210), (210, 390)]] := by
    rw [create_voronoi_polys,
      foldl_append_map (regionPolygon voronoiDemoVerts) voronoiDemoRegions [],
      List.nil_append, hpolys,
      foldl_filter_append, List.nil_append]
    rw [List.filter_cons, List.filter_cons, hdrop]
    simp only [Bool.not_false, if_true, List.filter_nil]
    rw [foldl_append_map, List.nil_append]
    rw [List.map_cons, List.map_cons, List.map_nil, hscale]
  have heval2 : spec_create_voronoi_polys voronoiDemoVerts voronoiDemoRegions (128,128) (512,512)
      = [[(620/3, 620/3), (1160/3, 620/3), (620/3, 1160/3)],
         [(620/3, 620/3), (1160/3, 620/3), (620/3, 1160/3)]] := by
    rw [spec_create_voronoi_polys,
      foldl_append_map (regionPolygon voronoiDemoVerts) voronoiDemoRegions [],
      List.nil_append, hpolys,
      foldl_filter_append, List.nil_append]
    rw [List.filter_cons, List.filter_cons, hdrop]
    simp only [Bool.not_false, if_true, List.filter_nil]
    rw [foldl_append_map, List.nil_append]
    rw [List.map_cons, List.map_cons, List.map_nil, hcentroid]
  rw [heval, heval2]
  constructor
  · rfl
  · simp only [ne_eq, List.cons.injEq, Prod.mk.injEq]
    norm_num

/-- Claim C8 (amended): `create_vertices` returns the sampled points
followed by conditional reflections: for each sample, an exact mirror image
across an edge is appended only when the source's `delta < offset` test for
that edge passes (right edge when within `offset.x` of it, left edge whenever
`offset.x - x < offset.x`, top and bottom when within `offset.y` of them) —
not unconditionally across all four edges; every appended copy is the exact
mirror `2*edge - coordinate` across its edge line. -/
theorem C8_reflections (off size : Point) (samples : List Point) :
    create_vertices off size samples
      = samples ++ samples.flatMap (fun pt =>
          (if off.1 + size.1 - pt.1 < off.1 then [((2 * (off.1 + size.1) - pt.1, pt.2) : Point)] else [])
        ++ (if off.1 - pt.1 < off.1 then [((2 * off.1 - pt.1, pt.2) : Point)] else [])
        ++ (if pt.2 - off.2 < off.2 then [((pt.1, 2 * off.2 - pt.2) : Point)] else [])
        ++ (if off.2 + size.2 - pt.2 < off.2 then [((pt.1, 2 * (off.2 + size.2) - pt.2) : Point)] else [])) := by
  rw [create_vertices]
  congr 1
  apply List.flatMap_congr
  intro pt _
  simp only [reflectionsOf]
  have e1 : off.1 + size.1 + (off.1 + size.1 - pt.1) = 2 * (off.1 + size.1) - pt.1 := by ring
  have e2 : off.1 + (off.1 - pt.1) = 2 * off.1 - pt.1 := by ring
  have e3 : off.2 - (pt.2 - off.2) = 2 * off.2 - pt.2 := by ring
  have e4 : off.2 + size.2 + (off.2 + size.2 - pt.2) = 2 * (off.2 + size.2) - pt.2 := by ring
  rw [e1, e2, e3, e4]

/-- Counterexample to claim C8 as stated: for the box at offset (128,128)
with size (512,512) and the single sampled point (384,384), the output holds
only the sample and its left-edge mirror (-128,384); the right-edge mirror
(896,384), top-edge mirror (384,-128) and bottom-edge mirror (384,896)
required by the claim are absent. -/
theorem C8_cex :
    create_vertices (128, 128) (512, 512) [(384, 384)] = [(384, 384), (-128, 384)]
  ∧ ((896 : ℚ), (384 : ℚ)) ∉ create_vertices (128, 128) (512, 512) [(384, 384)]
  ∧ ((384 : ℚ), (-128 : ℚ)) ∉ create_vertices (128, 128) (512, 512) [(384, 384)]
  ∧ ((384 : ℚ), (896 : ℚ)) ∉ create_vertices (128, 128) (512, 512) [(384, 384)] := by
  have heval : create_vertices (128, 128) (512, 512) [(384, 384)] = [(384, 384), (-128, 384)] := by
    norm_num [create_vertices, reflectionsOf]
  refine ⟨heval, ?_, ?_, ?_⟩ <;> rw [heval] <;> norm_num [Prod.ext_iff]

theorem ratTrunc_of_nonneg {q : ℚ} (h : 0 ≤ q) : ratTrunc q = ⌊q⌋ := if_pos h

theorem polyXMin_le_polyXMax (poly : List Point) : polyXMin poly ≤ polyXMax poly :=
  listMinD_le_listMaxD _

theorem polyYMin_le_polyYMax (poly : List Point) : polyYMin poly ≤ polyYMax poly :=
  listMinD_le_listMaxD _

theorem shardInit_isSome (W H : ℤ) (off : Point) (poly : List Point) :
    (shardInit W H off poly).isSome = subsurfaceOK W H (shardCropRect off poly) := by
  simp only [shardInit]
  split <;> simp_all

/-- Claim C9 (amended): shard construction fails (pygame `subsurface` raises)
exactly when the integer crop rectangle — each component truncated toward
zero from the polygon's real-valued bounds — does not fit inside the source
image; every polygon whose bounds lie within the image extent succeeds, and
bounds exceeding the right edge by 2 or more units always fail, but a
polygon whose bounds exceed the extent by a fraction of that may still be
accepted because truncation shrinks the rectangle. -/
theorem C9_cropBounds (W H : ℤ) (off : Point) (poly : List Point) :
    ((off.1 ≤ polyXMin poly ∧ polyXMax poly ≤ off.1 + (W:ℚ)
      ∧ off.2 ≤ polyYMin poly ∧ polyYMax poly ≤ off.2 + (H:ℚ)) →
        (shardInit W H off poly).isSome = true)
  ∧ (shardInit W H off poly = none ↔ subsurfaceOK W H (shardCropRect off poly) = false)
  ∧ (off.1 + (W:ℚ) + 2 ≤ polyXMax poly → shardInit W H off poly = none) := by
  have hxminmax := polyXMin_le_polyXMax poly
  have hyminmax := polyYMin_le_polyYMax poly
  have hiff : shardInit W H off poly = none ↔
      subsurfaceOK W H (shardCropRect off poly) = false := by
    simp only [shardInit]
    split
    · next hok => simp [hok]
    · next hok => simp [Bool.not_eq_true] at hok; simp [hok]
  refine ⟨?_, hiff, ?_⟩
  · rintro ⟨h1, h2, h3, h4⟩
    rw [shardInit_isSome]
    have ha : (0:ℚ) ≤ polyXMin poly - off.1 := by linarith
    have hb : (0:ℚ) ≤ polyXMax poly - polyXMin poly := by linarith
    have hc : (0:ℚ) ≤ polyYMin poly - off.2 := by linarith
    have hd : (0:ℚ) ≤ polyYMax poly - polyYMin poly := by linarith
    simp only [subsurfaceOK, shardCropRect, Bool.and_eq_true, decide_eq_true_eq,
      ratTrunc_of_nonneg ha, ratTrunc_of_nonneg hb, ratTrunc_of_nonneg hc,
      ratTrunc_of_nonneg hd]
    refine ⟨⟨⟨Int.floor_nonneg.mpr ha, Int.floor_nonneg.mpr hc⟩, ?_⟩, ?_⟩
    · have hsum : ((⌊polyXMin poly - off.1⌋ + ⌊polyXMax poly - polyXMin poly⌋ : ℤ) : ℚ)
          ≤ (W:ℚ) := by
        push_cast
        have f1 := Int.floor_le (polyXMin poly - off.1)
        have f2 := Int.floor_le (polyXMax poly - polyXMin poly)
        linarith
      exact_mod_cast hsum
    · have hsum : ((⌊polyYMin poly - off.2⌋ + ⌊polyYMax poly - polyYMin poly⌋ : ℤ) : ℚ)
          ≤ (H:ℚ) := by
        push_cast
        have f1 := Int.floor_le (polyYMin poly - off.2)
        have f2 := Int.floor_le (polyYMax poly - polyYMin poly)
        linarith
      exact_mod_cast hsum
  · intro hover
    rw [hiff]
    have hb0 : (0:ℚ) ≤ polyXMax poly - polyXMin poly := by linarith
    have hab : (W:ℚ) + 2 ≤ (polyXMin poly - off.1) + (polyXMax poly - polyXMin poly) := by
      linarith
    cases hok : subsurfaceOK W H (shardCropRect off poly) with
    | false => rfl
    | true =>
      exfalso
      simp only [subsurfaceOK, shardCropRect, Bool.and_eq_true, decide_eq_true_eq] at hok
      obtain ⟨⟨⟨hx0, -⟩, hxw⟩, -⟩ := hok
      rw [ratTrunc_of_nonneg hb0] at hxw
      by_cases ha0 : (0:ℚ) ≤ polyXMin poly - off.1
      · rw [ratTrunc_of_nonneg ha0] at hxw
        have f1 : polyXMin poly - off.1 - 1 < (⌊polyXMin poly - off.1⌋ : ℚ) :=
          Int.sub_one_lt_floor _
        have f2 : polyXMax poly - polyXMin poly - 1
            < (⌊polyXMax poly - polyXMin poly⌋ : ℚ) := Int.sub_one_lt_floor _
        have hc : ((⌊polyXMin poly - off.1⌋ + ⌊polyXMax poly - polyXMin poly⌋ : ℤ) : ℚ)
            ≤ (W:ℚ) := by exact_mod_cast hxw
        push_cast at hc
        linarith
      · push_neg at ha0
        have htr : ratTrunc (polyXMin poly - off.1) = -⌊-(polyXMin poly - off.1)⌋ :=
          if_neg (by linarith)
        rw [htr] at hxw
        have hfl0 : (0:ℤ) ≤ ⌊-(polyXMin poly - off.1)⌋ := Int.floor_nonneg.mpr (by linarith)
        by_cases hfl1 : (1:ℤ) ≤ ⌊-(polyXMin poly - off.1)⌋
        · rw [htr] at hx0
          omega
        · have hfl_eq : ⌊-(polyXMin poly - off.1)⌋ = 0 := by omega
          have hlt1 : -(polyXMin poly - off.1) < 1 := by
            have hh := Int.lt_floor_add_one (-(polyXMin poly - off.1))
            rw [hfl_eq] at hh
            push_cast at hh
            linarith
          rw [hfl_eq] at hxw
          have hZ : ⌊polyXMax poly - polyXMin poly⌋ ≤ W := by omega
          have hc : ((⌊polyXMax poly - polyXMin poly⌋ : ℤ) : ℚ) ≤ (W:ℚ) := by
            exact_mod_cast hZ
          have f2 : polyXMax poly - polyXMin poly - 1
              < (⌊polyXMax poly - polyXMin poly⌋ : ℚ) := Int.sub_one_lt_floor _
          linarith

/-- Counterexample to claim C9 as stated: `cropDemoPoly` has `x_max = 100.5`,
exceeding the 100-wide image, yet construction succeeds (the truncated crop
rectangle is `(0, 0, 99, 50)`, which fits), instead of failing fatally. -/
theorem C9_truncEscape_cex :
    ((0:ℚ), (0:ℚ)).1 + ((100:ℤ):ℚ) < polyXMax cropDemoPoly
  ∧ shardInit 100 100 ((0:ℚ), (0:ℚ)) cropDemoPoly = some ⟨0, 0, 99, 50⟩ := by
  have hxmin : polyXMin cropDemoPoly = 9/10 := by
    norm_num [cropDemoPoly, polyXMin, listMinD, min_def]
  have hxmax : polyXMax cropDemoPoly = 201/2 := by
    norm_num [cropDemoPoly, polyXMax, listMaxD, max_def]
  have hymin : polyYMin cropDemoPoly = 0 := by
    norm_num [cropDemoPoly, polyYMin, listMinD, min_def]
  have hymax : polyYMax cropDemoPoly = 50 := by
    norm_num [cropDemoPoly, polyYMax, listMaxD, max_def]
  constructor
  · rw [hxmax]
    norm_num
  · have t1 : ratTrunc (9/10 - (0:ℚ)) = 0 := by
      rw [ratTrunc_of_nonneg (by norm_num)]
      rw [Int.floor_eq_iff]
      constructor <;> norm_num
    have t2 : ratTrunc ((0:ℚ) - 0) = 0 := by
      rw [ratTrunc_of_nonneg (by norm_num)]
      norm_num
    have t3 : ratTrunc (201/2 - (9:ℚ)/10) = 99 := by
      rw [ratTrunc_of_nonneg (by norm_num)]
      rw [Int.floor_eq_iff]
      constructor <;> norm_num
    have t4 : ratTrunc ((50:ℚ) - 0) = 50 := by
      rw [ratTrunc_of_nonneg (by norm_num)]
      norm_num
    have hrect : shardCropRect ((0:ℚ), (0:ℚ)) cropDemoPoly = ⟨0, 0, 99, 50⟩ := by
      simp only [shardCropRect, hxmin, hxmax, hymin, hymax]
      rw [t1, t2, t3, t4]
    rw [shardInit, hrect]
    norm_num [subsurfaceOK]

end FFXShatter
